import Mathlib

/-!
Shallow embedding of the CSV→JSON pericope pipeline of the bibliaaberta
repository (scripts convert_to_lemmas.py and convert_csv_with_pericopes.py),
together with theorems settling the frozen claims about it.

Conventions of the embedding:
  * pandas DataFrames become Lean lists of typed rows; `groupby('chapter')`
    becomes `List.filter` on the chapter field (pandas groupby preserves the
    relative order of rows inside a group, exactly as filter does, and
    iterates the groups in ascending key order, which we reproduce by
    iterating over the sorted deduplicated key list);
  * `sort_values(..., kind='mergesort')` becomes `stableSort` below, a
    stable comparator sort; the one unstable sort in the sources
    (`grp.sort_values([...])` inside `validate_pericopes`, default quicksort)
    is also modelled by `stableSort`, which is observationally equivalent
    there because the loop body reads only the sort keys (start_verse,
    end_verse) of each row;
  * Python ints become `Int` (they may be negative in principle);
  * the regular expressions are compiled by hand into deterministic scanners;
    for the patterns at hand greedy matching never needs to backtrack, because
    every quantified character class is disjoint from the character that must
    follow it, so the scanners below compute exactly re.findall's
    leftmost, non-overlapping matches. `\d` is modelled as the ASCII digits
    (Python's Unicode `\d` also accepts other decimal-digit scripts; none of
    the claims depends on that difference) and `\s` as the Unicode whitespace
    set that CPython's `str` patterns use.
-/

namespace Biblia

/-- The character U+007B (opening curly brace), written via its code point. -/
def lbrace : Char := Char.ofNat 123

/-- The character U+007D (closing curly brace), written via its code point. -/
def rbrace : Char := Char.ofNat 125

/-- Python's `\s` on `str` patterns: the Unicode whitespace characters. -/
def pyIsSpace (c : Char) : Bool :=
  decide (c.toNat ∈ ([9, 10, 11, 12, 13, 28, 29, 30, 31, 32,
                      133, 160, 0x1680, 0x2028, 0x2029, 0x202F, 0x205F, 0x3000] : List Nat)
          ∨ (0x2000 ≤ c.toNat ∧ c.toNat ≤ 0x200A))

/-- Python's `\d` restricted to the ASCII digits 0–9. -/
def isAsciiDigit (c : Char) : Bool :=
  decide (48 ≤ c.toNat ∧ c.toNat ≤ 57)

/-- The character class `[^\s{}]` of TOKEN_RE in convert_csv_with_pericopes.py. -/
def isSurfaceChar (c : Char) : Bool :=
  !pyIsSpace c && !(c == lbrace) && !(c == rbrace)

/-- The character class `[Ͱ-Ͽἀ-῿]` of GREEK_WORD_RE in
convert_to_lemmas.py. -/
def isGreekChar (c : Char) : Bool :=
  decide ((0x370 ≤ c.toNat ∧ c.toNat ≤ 0x3FF) ∨ (0x1F00 ≤ c.toNat ∧ c.toNat ≤ 0x1FFF))

/-- A token of convert_csv_with_pericopes.py: the dict
produced for one match of TOKEN_RE. -/
structure Token where
  greek : String
  strongs : String
  morph : String
deriving DecidableEq, Repr

/-- A token of convert_to_lemmas.py: the single-key dict produced by
parse_lemmas_text_only (the Python key is `lemma`, a reserved word in Lean). -/
structure LemmaToken where
  lemmaText : String
deriving DecidableEq, Repr

/-- One attempt of TOKEN_RE = `([^\s{}]+)\s+(\d+)\s+\{([^}]+)\}` at the head of
`cs`. Each quantified class is disjoint from the character the pattern requires
next, so the greedy match is deterministic: take the maximal run for each
group, then demand the following literal. Returns the three capture groups and
the rest of the input after the match. -/
def tryMatch (cs : List Char) : Option (Token × List Char) :=
  let w := cs.takeWhile isSurfaceChar
  let r1 := cs.dropWhile isSurfaceChar
  if w.isEmpty then none else
  if (r1.takeWhile pyIsSpace).isEmpty then none else
  let r2 := r1.dropWhile pyIsSpace
  let d := r2.takeWhile isAsciiDigit
  let r3 := r2.dropWhile isAsciiDigit
  if d.isEmpty then none else
  if (r3.takeWhile pyIsSpace).isEmpty then none else
  let r4 := r3.dropWhile pyIsSpace
  match r4 with
  | [] => none
  | c :: r5 =>
    if c = lbrace then
      let m := r5.takeWhile (fun x => !(x == rbrace))
      let r6 := r5.dropWhile (fun x => !(x == rbrace))
      if m.isEmpty then none else
      match r6 with
      | [] => none
      | c2 :: r7 =>
        if c2 = rbrace then some (⟨String.mk w, String.mk d, String.mk m⟩, r7) else none
    else none

/-- re.findall of TOKEN_RE: scan left to right, at each position attempt a
match; on success continue after the match, on failure advance one character.
The fuel argument is instantiated with the input length, which suffices since
every step consumes at least one character. -/
def findTokensAux : Nat → List Char → List Token
  | 0, _ => []
  | _ + 1, [] => []
  | fuel + 1, c :: cs =>
    match tryMatch (c :: cs) with
    | some (t, rest) => t :: findTokensAux fuel rest
    | none => findTokensAux fuel cs

/-- `parse_tokens` of convert_csv_with_pericopes.py (the `isinstance(text, str)`
guard is vacuous here because the embedded text field is always a string). -/
def parse_tokens (text : String) : List Token :=
  findTokensAux text.data.length text.data

/-- re.findall of a single character-class-plus pattern: the maximal runs of
characters satisfying `p`, in order. Fuel as in `findTokensAux`. -/
def runsAux (p : Char → Bool) : Nat → List Char → List (List Char)
  | 0, _ => []
  | _ + 1, [] => []
  | fuel + 1, c :: cs =>
    if p c then
      (c :: cs).takeWhile p :: runsAux p fuel ((c :: cs).dropWhile p)
    else
      runsAux p fuel cs

/-- `parse_lemmas_text_only` of convert_to_lemmas.py. `(text or "").split()`
splits on Unicode whitespace into nonempty words, so the `if w.strip()` filter
of the source keeps every word and is dropped here. -/
def parse_lemmas_text_only (text : String) (fallback_ws : Bool) : List LemmaToken :=
  let words := runsAux isGreekChar text.data.length text.data
  if words.isEmpty && fallback_ws then
    (runsAux (fun c => !pyIsSpace c) text.data.length text.data).map
      (fun w => ⟨String.mk w⟩)
  else
    words.map (fun w => ⟨String.mk w⟩)

/-- Insert `a` into `l` before the first element `b` with `le a b`. Together
with `stableSort` this is a stable sorting algorithm: among elements with
equal keys the original order is preserved, which is exactly the contract of
the `kind='mergesort'` (stable) sorts in the sources. A structurally
recursive sort is used so that concrete inputs evaluate inside the kernel. -/
def orderedInsert {α : Type} (le : α → α → Bool) (a : α) : List α → List α
  | [] => [a]
  | b :: l => if le a b then a :: b :: l else b :: orderedInsert le a l

/-- Stable sort by the boolean comparator `le` (see `orderedInsert`). -/
def stableSort {α : Type} (le : α → α → Bool) : List α → List α
  | [] => []
  | a :: l => orderedInsert le a (stableSort le l)

/-- One row of the verses CSV after load_verses: columns chapter, verse, text,
coerced to int/int/str. -/
structure VerseRow where
  chapter : Int
  verse : Int
  text : String
deriving DecidableEq, Repr

/-- One row of the pericopes CSV after load_pericopes. The optional `order`
column is table-level in the source (present for all rows or for none); it is
modelled by a field that is meaningful only when the surrounding
`PericopeTable.hasOrder` is true. -/
structure PericopeRow where
  pericope_id : String
  title : String
  chapter : Int
  start_verse : Int
  end_verse : Int
  order : Int
deriving DecidableEq, Repr

/-- The pericopes table: its rows plus whether the optional `order` column is
present (`'order' in df.columns`). -/
structure PericopeTable where
  rows : List PericopeRow
  hasOrder : Bool
deriving DecidableEq, Repr

/-- Comparator for `sort_values(['start_verse','end_verse'])`. -/
def leSE (a b : PericopeRow) : Bool :=
  decide (a.start_verse < b.start_verse ∨
          (a.start_verse = b.start_verse ∧ a.end_verse ≤ b.end_verse))

/-- Comparator for `sort_values(['order','start_verse','end_verse'])`. -/
def leOSE (a b : PericopeRow) : Bool :=
  decide (a.order < b.order ∨
          (a.order = b.order ∧
           (a.start_verse < b.start_verse ∨
            (a.start_verse = b.start_verse ∧ a.end_verse ≤ b.end_verse))))

/-- Comparator for `sort_values(['chapter','start_verse','end_verse'])`. -/
def leCSE (a b : PericopeRow) : Bool :=
  decide (a.chapter < b.chapter ∨ (a.chapter = b.chapter ∧ leSE a b = true))

/-- Comparator for `sort_values(['chapter','order','start_verse','end_verse'])`. -/
def leCOSE (a b : PericopeRow) : Bool :=
  decide (a.chapter < b.chapter ∨ (a.chapter = b.chapter ∧ leOSE a b = true))

/-- Comparator for `sort_values(['chapter','verse'])` on verse rows. -/
def leCV (a b : VerseRow) : Bool :=
  decide (a.chapter < b.chapter ∨ (a.chapter = b.chapter ∧ a.verse ≤ b.verse))

/-- Comparator for `sort_values('verse')` on verse rows. -/
def leV (a b : VerseRow) : Bool :=
  decide (a.verse ≤ b.verse)

/-- The stable sort applied by load_verses: by (chapter, verse), kind=mergesort. -/
def sortVerses (vs : List VerseRow) : List VerseRow :=
  stableSort leCV vs

/-- The stable sort applied by load_pericopes: by (chapter, order, start_verse,
end_verse) when the order column is present, else by (chapter, start_verse,
end_verse); kind=mergesort. -/
def canonicalSort (t : PericopeTable) : List PericopeRow :=
  if t.hasOrder then stableSort leCOSE t.rows else stableSort leCSE t.rows

/-- The per-chapter sort applied inside build_json / build_chapter_structure:
by (order, start_verse, end_verse) when the order column is present, else by
(start_verse, end_verse); kind=mergesort. -/
def sortChapterPeris (hasOrder : Bool) (grp : List PericopeRow) : List PericopeRow :=
  if hasOrder then stableSort leOSE grp else stableSort leSE grp

/-- `verses_df.groupby('chapter')['verse'].max().to_dict()` looked up at
chapter `c`: the maximum verse number observed for that chapter, or none when
the chapter has no verse rows. -/
def lastVerse (vs : List VerseRow) (c : Int) : Option Int :=
  ((vs.filter (fun v => decide (v.chapter = c))).map VerseRow.verse).max?

/-- The warnings validate_pericopes appends, one constructor per f-string of
the source, carrying exactly the values interpolated into the message:
  * `overlap chap s last` — "Cap \x7bchap\x7d: sobreposição: início \x7bs\x7d sobrepõe \x7blast\x7d."
  * `gap chap last s` — "Cap \x7bchap\x7d: lacuna entre \x7blast\x7d e \x7bs\x7d."
  * `coverage chap last maxv` — "Cap \x7bchap\x7d: termina em \x7blast\x7d, mas deveria terminar em \x7bmaxv\x7d."
  * `noVerses chap` — "Cap \x7bchap\x7d: não há versos no CSV de versículos."
  * `endBeyond chap pid e maxv` — "Cap \x7bchap\x7d: perícope \x7bpid\x7d termina em \x7be\x7d > \x7bmaxv\x7d." -/
inductive Warning where
  | overlap (chap start_verse last_end : Int)
  | gap (chap last_end start_verse : Int)
  | coverage (chap last_end maxv : Int)
  | noVerses (chap : Int)
  | endBeyond (chap : Int) (pericope_id : String) (end_verse maxv : Int)
deriving DecidableEq, Repr

/-- The warnings one iteration of the inner loop of validate_pericopes
(lines 90–98) appends for pericope `r`, given the running cursor `last`. -/
def stepWarnings (chap last : Int) (r : PericopeRow) : List Warning :=
  (if r.start_verse ≤ last ∧ last ≠ 0 then [Warning.overlap chap r.start_verse last] else [])
  ++ (if r.start_verse ≠ last + 1 then [Warning.gap chap last r.start_verse] else [])

/-- The `ok` flag after one iteration of the inner loop of validate_pericopes:
an overlap clears it unconditionally, a gap clears it only under
require_full_coverage. -/
def stepOk (rfc : Bool) (last : Int) (r : PericopeRow) (ok : Bool) : Bool :=
  if r.start_verse ≠ last + 1 ∧ rfc then false
  else if r.start_verse ≤ last ∧ last ≠ 0 then false
  else ok

/-- The inner loop of validate_pericopes over one chapter's (already sorted)
pericopes: threads `ok` and the cursor `last_end`, returns the final flag, the
warnings emitted by this loop, and the final cursor. -/
def walk (rfc : Bool) (chap : Int) (ok : Bool) (last : Int) :
    List PericopeRow → Bool × List Warning × Int
  | [] => (ok, [], last)
  | r :: rs =>
    let ws := stepWarnings chap last r
    let res := walk rfc chap (stepOk rfc last r ok) r.end_verse rs
    (res.1, ws ++ res.2.1, res.2.2)

/-- The body of `for chap, grp in peris_df.groupby('chapter')` in
validate_pericopes (lines 87–105): sort the group by (start_verse, end_verse),
walk it from cursor 0, then compare the final cursor with the chapter's
maximum observed verse (defaulting to the cursor itself when the chapter has
no verses). -/
def chapterCheck (vs : List VerseRow) (rows : List PericopeRow) (rfc : Bool)
    (ok : Bool) (c : Int) : Bool × List Warning :=
  let grp := stableSort leSE (rows.filter (fun r => decide (r.chapter = c)))
  let res := walk rfc c ok 0 grp
  let last := res.2.2
  let maxv := (lastVerse vs c).getD last
  if last ≠ maxv then
    ((if rfc then false else res.1), res.2.1 ++ [Warning.coverage c last maxv])
  else
    (res.1, res.2.1)

/-- The chapter loop of validate_pericopes, iterating the chapters of the
pericope table in ascending order (pandas groupby order). -/
def chaptersLoop (vs : List VerseRow) (rows : List PericopeRow) (rfc : Bool)
    (ok : Bool) : List Int → Bool × List Warning
  | [] => (ok, [])
  | c :: cs =>
    let res := chapterCheck vs rows rfc ok c
    let rest := chaptersLoop vs rows rfc res.1 cs
    (rest.1, res.2 ++ rest.2)

/-- The second loop of validate_pericopes (lines 106–114), over every pericope
row: a chapter with no verses, or an end_verse beyond the chapter's maximum
observed verse, clears `ok` unconditionally. -/
def perPericopeLoop (vs : List VerseRow) (ok : Bool) :
    List PericopeRow → Bool × List Warning
  | [] => (ok, [])
  | r :: rs =>
    match lastVerse vs r.chapter with
    | none =>
      let rest := perPericopeLoop vs false rs
      (rest.1, Warning.noVerses r.chapter :: rest.2)
    | some maxv =>
      if r.end_verse > maxv then
        let rest := perPericopeLoop vs false rs
        (rest.1, Warning.endBeyond r.chapter r.pericope_id r.end_verse maxv :: rest.2)
      else
        perPericopeLoop vs ok rs

/-- The ascending list of chapters of the pericope rows (the order in which
`peris_df.groupby('chapter')` yields its groups). -/
def periChapters (rows : List PericopeRow) : List Int :=
  stableSort (fun a b => decide (a ≤ b)) ((rows.map PericopeRow.chapter).dedup)

/-- `validate_pericopes` of convert_to_lemmas.py (lines 83–117): the chapter
loop followed by the per-pericope loop; returns the `ok` verdict and all
warnings in emission order. -/
def validate_pericopes (vs : List VerseRow) (rows : List PericopeRow)
    (rfc : Bool) : Bool × List Warning :=
  let resA := chaptersLoop vs rows rfc true (periChapters rows)
  let resB := perPericopeLoop vs resA.1 rows
  (resB.1, resA.2 ++ resB.2)

/-- The per-chapter pericope sequence actually inspected by the inner loop of
validate_pericopes: the chapter's rows re-sorted by (start_verse, end_verse). -/
def inspectedSeq (rows : List PericopeRow) (c : Int) : List PericopeRow :=
  stableSort leSE (rows.filter (fun r => decide (r.chapter = c)))

/-- The cursor update of `detect_overlaps` in convert_csv_with_pericopes.py
(line 120): `last_end = max(last_end, e)`. -/
def detectCursorStep (last_end e : Int) : Int := max last_end e

/-- The interval scan of `detect_overlaps` over one chapter's sorted interval
list, starting from the sentinel cursor: returns the warnings (as (chapter,
start, last_end) triples standing for the interpolated message) and the final
cursor. -/
def detectScan (chap : Int) (last_end : Int) :
    List (Int × Int) → List (Int × Int × Int) × Int
  | [] => ([], last_end)
  | (s, e) :: rest =>
    let here := if s ≤ last_end then [(chap, s, last_end)] else []
    let res := detectScan chap (detectCursorStep last_end e) rest
    (here ++ res.1, res.2)

/-- Comparator for Python `sorted` on (start, end) int pairs. -/
def lePair (a b : Int × Int) : Bool :=
  decide (a.1 < b.1 ∨ (a.1 = b.1 ∧ a.2 ≤ b.2))

/-- `detect_overlaps` of convert_csv_with_pericopes.py (lines 109–121). -/
def detect_overlaps (rows : List PericopeRow) : List (Int × Int × Int) :=
  (periChapters rows).flatMap (fun c =>
    let intervals := (rows.filter (fun r => decide (r.chapter = c))).map
      (fun r => (r.start_verse, r.end_verse))
    (detectScan c (-(10 ^ 9)) (stableSort lePair intervals)).1)

/-- A verse object of the output JSON, generic in the token type (the two
scripts differ only in the token dict they emit). -/
structure VerseBlock (τ : Type) where
  verse : Int
  tokens : List τ
deriving DecidableEq, Repr

/-- A pericope object of the output JSON. -/
structure PericopeBlock (τ : Type) where
  id : String
  title : String
  start_verse : Int
  end_verse : Int
  verses : List (VerseBlock τ)
deriving DecidableEq, Repr

/-- A chapter object of the output JSON. -/
structure ChapterBlock (τ : Type) where
  chapter : Int
  pericopes : List (PericopeBlock τ)
deriving DecidableEq, Repr

/-- The ascending union of the chapter numbers of both tables:
`sorted(set(verses_by_chap) | set(peris_by_chap))`. -/
def unionChapters (vs : List VerseRow) (rows : List PericopeRow) : List Int :=
  stableSort (fun a b => decide (a ≤ b))
    ((vs.map VerseRow.chapter ++ rows.map PericopeRow.chapter).dedup)

/-- The verse selection of the assemblers:
`vdf[(vdf['verse'] >= start) & (vdf['verse'] <= end)].sort_values('verse',
kind='mergesort')` where `vdf` is the chapter's verse group. -/
def selectVerses (vs : List VerseRow) (c start_v end_v : Int) : List VerseRow :=
  stableSort leV ((vs.filter (fun v => decide (v.chapter = c))).filter
    (fun v => decide (start_v ≤ v.verse ∧ v.verse ≤ end_v)))

/-- The pericope object the assemblers emit for one pericope row: the row's
identity fields plus the tokenized selected verses. -/
def assemblePeri {τ : Type} (tok : String → List τ) (vs : List VerseRow)
    (c : Int) (row : PericopeRow) : PericopeBlock τ :=
  { id := row.pericope_id
    title := row.title
    start_verse := row.start_verse
    end_verse := row.end_verse
    verses := (selectVerses vs c row.start_verse row.end_verse).map
      (fun r => { verse := r.verse, tokens := tok r.text }) }

/-- The chapter object the assemblers emit for chapter `c`: that chapter's
pericope rows in their definitive per-chapter order, each assembled. -/
def assembleChapter {τ : Type} (tok : String → List τ) (vs : List VerseRow)
    (t : PericopeTable) (c : Int) : ChapterBlock τ :=
  { chapter := c
    pericopes := (sortChapterPeris t.hasOrder
        (t.rows.filter (fun r => decide (r.chapter = c)))).map
      (assemblePeri tok vs c) }

/-- The common shape of build_json (convert_to_lemmas.py, lines 119–147) and
build_chapter_structure (convert_csv_with_pericopes.py, lines 123–156),
generic in the tokenizer applied to each selected verse's text. -/
def assemble {τ : Type} (tok : String → List τ) (vs : List VerseRow)
    (t : PericopeTable) : List (ChapterBlock τ) :=
  (unionChapters vs t.rows).map (assembleChapter tok vs t)

/-- `build_json` of convert_to_lemmas.py: assembly with the lemma tokenizer. -/
def build_json (vs : List VerseRow) (t : PericopeTable) (fallback_ws : Bool) :
    List (ChapterBlock LemmaToken) :=
  assemble (fun s => parse_lemmas_text_only s fallback_ws) vs t

/-- `build_chapter_structure` of convert_csv_with_pericopes.py: assembly with
the triple tokenizer. -/
def build_chapter_structure (vs : List VerseRow) (t : PericopeTable) :
    List (ChapterBlock Token) :=
  assemble parse_tokens vs t

/-- Total number of tokens across all verse blocks of an assembled output. -/
def totalTokens {τ : Type} (cbs : List (ChapterBlock τ)) : Nat :=
  (cbs.map (fun cb =>
    (cb.pericopes.map (fun pb =>
      (pb.verses.map (fun vb => vb.tokens.length)).sum)).sum)).sum

/-! ### Spec-modelled definitions, for comparison with the code -/

/-- Modelled from the spec: the per-chapter pericope sequence in canonical
order, i.e. the order load_pericopes establishes (ascending `order` when the
column is present, with (start_verse, end_verse) tie-breakers), restricted to
one chapter. Claim C2 asserts the validator walks this sequence. -/
def canonicalChapterSeq (t : PericopeTable) (c : Int) : List PericopeRow :=
  (canonicalSort t).filter (fun r => decide (r.chapter = c))

/-- Modelled from the spec: the cursor value claim C1 asserts after a chapter
walk — starting from 0, each pericope advances the cursor to
max(cursor, end_verse), so the final value is the maximum end_verse seen. -/
def claimedMaxCursor (rs : List PericopeRow) : Int :=
  rs.foldl (fun acc r => max acc r.end_verse) 0

/-- Modelled from the spec: the total token count claim C3 asserts — the sum
over the set of verse rows lying inside at least one pericope's inclusive
interval for their chapter, each such row counted once. -/
def claimedCoveredTotal {τ : Type} (tok : String → List τ)
    (vs : List VerseRow) (rows : List PericopeRow) : Nat :=
  ((vs.filter (fun v => decide (∃ r ∈ rows, r.chapter = v.chapter ∧
      r.start_verse ≤ v.verse ∧ v.verse ≤ r.end_verse))).map
    (fun v => (tok v.text).length)).sum

/-! ### Concrete inputs used by witnesses and counterexamples -/

/-- Chapter 1 with verses 1..6 and empty text fields. -/
def versesOneToSix : List VerseRow :=
  [⟨1, 1, ""⟩, ⟨1, 2, ""⟩, ⟨1, 3, ""⟩, ⟨1, 4, ""⟩, ⟨1, 5, ""⟩, ⟨1, 6, ""⟩]

/-- Chapter 1 with verses 1..5 and empty text fields. -/
def versesOneToFive : List VerseRow :=
  [⟨1, 1, ""⟩, ⟨1, 2, ""⟩, ⟨1, 3, ""⟩, ⟨1, 4, ""⟩, ⟨1, 5, ""⟩]

/-- Pericope (chapter 1, verses 1–5). -/
def periOneFive : PericopeRow := ⟨"P1", "t1", 1, 1, 5, 0⟩

/-- Pericope (chapter 1, verses 2–3): together with `periOneFive` its
end_verse values are out of order once sorted by start_verse. -/
def periTwoThree : PericopeRow := ⟨"P2", "t2", 1, 2, 3, 0⟩

/-- Pericope (chapter 1, verses 1–2). -/
def periOneTwo : PericopeRow := ⟨"G1", "t1", 1, 1, 2, 0⟩

/-- Pericope (chapter 1, verses 5–6): together with `periOneTwo` it leaves a
gap at verses 3–4. -/
def periFiveSix : PericopeRow := ⟨"G2", "t2", 1, 5, 6, 0⟩

/-- Pericope with order 1 but the later interval 4–6 of chapter 1. -/
def periLateFirst : PericopeRow := ⟨"A", "tA", 1, 4, 6, 1⟩

/-- Pericope with order 2 but the earlier interval 1–3 of chapter 1. -/
def periEarlySecond : PericopeRow := ⟨"B", "tB", 1, 1, 3, 2⟩

/-- A pericope table with an order column whose canonical order disagrees
with the (start_verse, end_verse) order. -/
def orderedTab : PericopeTable := ⟨[periLateFirst, periEarlySecond], true⟩

/-- One verse row whose text holds exactly one TOKEN_RE match. -/
def oneTokenVerse : VerseRow := ⟨1, 1, "ab 12 \x7bm\x7d"⟩

/-- Two pericopes both covering verse 1 of chapter 1 (a full overlap). -/
def overlapTab : PericopeTable :=
  ⟨[⟨"P1", "t", 1, 1, 1, 0⟩, ⟨"P2", "t", 1, 1, 1, 0⟩], false⟩

/-- A pericope of chapter 2, a chapter with no verse rows in
`versesOneToSix`. -/
def periChapterTwo : PericopeRow := ⟨"Q1", "t", 2, 1, 4, 0⟩

/-- A pericope of chapter 1 ending at verse 8, beyond the maximum verse 6 of
`versesOneToSix`. -/
def periBeyondEnd : PericopeRow := ⟨"Q2", "t", 1, 2, 8, 0⟩

/-! ### Properties of the stable sort -/

theorem orderedInsert_perm {α : Type} (le : α → α → Bool) (a : α) (l : List α) :
    (orderedInsert le a l).Perm (a :: l) := by
  induction l with
  | nil => exact List.Perm.refl _
  | cons b t ih =>
    unfold orderedInsert
    by_cases h : le a b = true
    · simp [h]
    · rw [if_neg h]
      exact (ih.cons b).trans (List.Perm.swap a b t)

theorem stableSort_perm {α : Type} (le : α → α → Bool) (l : List α) :
    (stableSort le l).Perm l := by
  induction l with
  | nil => exact List.Perm.refl _
  | cons a t ih =>
    exact (orderedInsert_perm le a (stableSort le t)).trans (ih.cons a)

theorem mem_stableSort {α : Type} (le : α → α → Bool) (l : List α) (x : α) :
    x ∈ stableSort le l ↔ x ∈ l :=
  (stableSort_perm le l).mem_iff

theorem mem_orderedInsert {α : Type} (le : α → α → Bool) (a : α) (l : List α)
    (x : α) : x ∈ orderedInsert le a l ↔ x = a ∨ x ∈ l := by
  rw [(orderedInsert_perm le a l).mem_iff, List.mem_cons]

theorem pairwise_orderedInsert {α : Type} (le : α → α → Bool)
    (htrans : ∀ a b c, le a b = true → le b c = true → le a c = true)
    (htot : ∀ a b, le a b = true ∨ le b a = true) (a : α) (l : List α)
    (hl : l.Pairwise (fun x y => le x y = true)) :
    (orderedInsert le a l).Pairwise (fun x y => le x y = true) := by
  induction l with
  | nil => simp [orderedInsert]
  | cons b t ih =>
    rcases List.pairwise_cons.mp hl with ⟨hb, ht⟩
    unfold orderedInsert
    by_cases h : le a b = true
    · simp only [if_pos h]
      refine List.pairwise_cons.mpr ⟨?_, hl⟩
      intro x hx
      rcases List.mem_cons.mp hx with rfl | hx
      · exact h
      · exact htrans a b x h (hb x hx)
    · simp only [if_neg h]
      refine List.pairwise_cons.mpr ⟨?_, ih ht⟩
      intro x hx
      rcases (mem_orderedInsert le a t x).mp hx with rfl | hx
      · rcases htot x b with hxb | hbx
        · exact absurd hxb h
        · exact hbx
      · exact hb x hx

theorem pairwise_stableSort {α : Type} (le : α → α → Bool)
    (htrans : ∀ a b c, le a b = true → le b c = true → le a c = true)
    (htot : ∀ a b, le a b = true ∨ le b a = true) (l : List α) :
    (stableSort le l).Pairwise (fun x y => le x y = true) := by
  induction l with
  | nil => simp [stableSort]
  | cons a t ih => exact pairwise_orderedInsert le htrans htot a (stableSort le t) ih

theorem leSE_trans (a b c : PericopeRow) (h1 : leSE a b = true)
    (h2 : leSE b c = true) : leSE a c = true := by
  simp only [leSE, decide_eq_true_eq] at *
  omega

theorem leSE_total (a b : PericopeRow) : leSE a b = true ∨ leSE b a = true := by
  simp only [leSE, decide_eq_true_eq]
  omega

theorem leV_trans (a b c : VerseRow) (h1 : leV a b = true)
    (h2 : leV b c = true) : leV a c = true := by
  simp only [leV, decide_eq_true_eq] at *
  omega

theorem leV_total (a b : VerseRow) : leV a b = true ∨ leV b a = true := by
  simp only [leV, decide_eq_true_eq]
  omega

theorem intLe_trans (a b c : Int) (h1 : decide (a ≤ b) = true)
    (h2 : decide (b ≤ c) = true) : decide (a ≤ c) = true := by
  simp only [decide_eq_true_eq] at *
  omega

theorem intLe_total (a b : Int) : decide (a ≤ b) = true ∨ decide (b ≤ a) = true := by
  simp only [decide_eq_true_eq]
  omega

/-! ### Validator helper lemmas -/

theorem stepOk_false (rfc : Bool) (last : Int) (r : PericopeRow) :
    stepOk rfc last r false = false := by
  unfold stepOk
  split
  · rfl
  · split <;> rfl

theorem stepOk_overlap (rfc : Bool) (last : Int) (r : PericopeRow) (ok : Bool)
    (h1 : r.start_verse ≤ last) (h2 : last ≠ 0) :
    stepOk rfc last r ok = false := by
  unfold stepOk
  split
  · rfl
  · exact if_pos ⟨h1, h2⟩

theorem stepOk_id (last : Int) (r : PericopeRow) (ok : Bool)
    (h : ¬(r.start_verse ≤ last ∧ last ≠ 0)) :
    stepOk false last r ok = ok := by
  unfold stepOk
  rw [if_neg (by simp), if_neg h]

theorem walk_false (rfc : Bool) (chap : Int) (last : Int)
    (rs : List PericopeRow) : (walk rfc chap false last rs).1 = false := by
  induction rs generalizing last with
  | nil => rfl
  | cons r t ih =>
    show (walk rfc chap (stepOk rfc last r false) r.end_verse t).1 = false
    rw [stepOk_false]
    exact ih r.end_verse

theorem mem_stepWarnings_overlap (chap last : Int) (r : PericopeRow)
    (c s l : Int) :
    Warning.overlap c s l ∈ stepWarnings chap last r ↔
      (c = chap ∧ s = r.start_verse ∧ l = last ∧
       r.start_verse ≤ last ∧ last ≠ 0) := by
  unfold stepWarnings
  by_cases h1 : r.start_verse ≤ last ∧ last ≠ 0 <;>
    by_cases h2 : r.start_verse ≠ last + 1 <;>
    simp [h1, h2, Warning.overlap.injEq, and_assoc]

theorem mem_stepWarnings_gap (chap last : Int) (r : PericopeRow)
    (c l s : Int) :
    Warning.gap c l s ∈ stepWarnings chap last r ↔
      (c = chap ∧ l = last ∧ s = r.start_verse ∧
       r.start_verse ≠ last + 1) := by
  unfold stepWarnings
  by_cases h1 : r.start_verse ≤ last ∧ last ≠ 0 <;>
    by_cases h2 : r.start_verse ≠ last + 1 <;>
    simp [h1, h2, Warning.gap.injEq, and_assoc]

theorem walk_overlap_false (rfc : Bool) (chap : Int) (ok : Bool) (last : Int)
    (rs : List PericopeRow) (c s l : Int)
    (h : Warning.overlap c s l ∈ (walk rfc chap ok last rs).2.1) :
    (walk rfc chap ok last rs).1 = false := by
  induction rs generalizing ok last with
  | nil => simp [walk] at h
  | cons r t ih =>
    have hw : (walk rfc chap ok last (r :: t)).2.1 =
        stepWarnings chap last r ++
          (walk rfc chap (stepOk rfc last r ok) r.end_verse t).2.1 := rfl
    have hok : (walk rfc chap ok last (r :: t)).1 =
        (walk rfc chap (stepOk rfc last r ok) r.end_verse t).1 := rfl
    rw [hw] at h
    rw [hok]
    rcases List.mem_append.mp h with hm | hm
    · rcases (mem_stepWarnings_overlap chap last r c s l).mp hm with
        ⟨_, _, _, hle, hne⟩
      rw [stepOk_overlap rfc last r ok hle hne]
      exact walk_false rfc chap r.end_verse t
    · exact ih (stepOk rfc last r ok) r.end_verse hm

theorem chapterCheck_false (vs : List VerseRow) (rows : List PericopeRow)
    (rfc : Bool) (c : Int) : (chapterCheck vs rows rfc false c).1 = false := by
  simp only [chapterCheck, walk_false]
  split
  · split <;> rfl
  · rfl

theorem chaptersLoop_false (vs : List VerseRow) (rows : List PericopeRow)
    (rfc : Bool) (cs : List Int) :
    (chaptersLoop vs rows rfc false cs).1 = false := by
  induction cs with
  | nil => rfl
  | cons c t ih =>
    show (chaptersLoop vs rows rfc (chapterCheck vs rows rfc false c).1 t).1 = false
    rw [chapterCheck_false]
    exact ih

theorem perPericopeLoop_false (vs : List VerseRow) (rows : List PericopeRow) :
    (perPericopeLoop vs false rows).1 = false := by
  induction rows with
  | nil => rfl
  | cons r t ih =>
    unfold perPericopeLoop
    split
    · exact ih
    · split
      · exact ih
      · exact ih

theorem perPericopeLoop_shape (vs : List VerseRow) (ok : Bool)
    (rows : List PericopeRow) (w : Warning)
    (h : w ∈ (perPericopeLoop vs ok rows).2) :
    (∃ c, w = Warning.noVerses c) ∨
      (∃ c p e m, w = Warning.endBeyond c p e m) := by
  induction rows generalizing ok with
  | nil => simp [perPericopeLoop] at h
  | cons r t ih =>
    unfold perPericopeLoop at h
    revert h
    split
    · intro h
      rcases List.mem_cons.mp h with rfl | h
      · exact Or.inl ⟨r.chapter, rfl⟩
      · exact ih false h
    · split
      · intro h
        rcases List.mem_cons.mp h with rfl | h
        · exact Or.inr ⟨_, _, _, _, rfl⟩
        · exact ih false h
      · intro h
        exact ih ok h

theorem chapterCheck_overlap_false (vs : List VerseRow)
    (rows : List PericopeRow) (rfc : Bool) (ok : Bool) (c a s l : Int)
    (h : Warning.overlap a s l ∈ (chapterCheck vs rows rfc ok c).2) :
    (chapterCheck vs rows rfc ok c).1 = false := by
  simp only [chapterCheck] at h ⊢
  revert h
  split
  · intro h
    rcases List.mem_append.mp h with hm | hm
    · rw [walk_overlap_false rfc c ok 0 _ a s l hm]
      split <;> rfl
    · simp at hm
  · intro h
    exact walk_overlap_false rfc c ok 0 _ a s l h

theorem chaptersLoop_overlap_false (vs : List VerseRow)
    (rows : List PericopeRow) (rfc : Bool) (ok : Bool) (cs : List Int)
    (a s l : Int)
    (h : Warning.overlap a s l ∈ (chaptersLoop vs rows rfc ok cs).2) :
    (chaptersLoop vs rows rfc ok cs).1 = false := by
  induction cs generalizing ok with
  | nil => simp [chaptersLoop] at h
  | cons c t ih =>
    have hw : (chaptersLoop vs rows rfc ok (c :: t)).2 =
        (chapterCheck vs rows rfc ok c).2 ++
          (chaptersLoop vs rows rfc (chapterCheck vs rows rfc ok c).1 t).2 := rfl
    have hok : (chaptersLoop vs rows rfc ok (c :: t)).1 =
        (chaptersLoop vs rows rfc (chapterCheck vs rows rfc ok c).1 t).1 := rfl
    rw [hw] at h
    rw [hok]
    rcases List.mem_append.mp h with hm | hm
    · rw [chapterCheck_overlap_false vs rows rfc ok c a s l hm]
      exact chaptersLoop_false vs rows rfc t
    · exact ih _ hm

theorem validate_overlap_ok_false (vs : List VerseRow)
    (rows : List PericopeRow) (rfc : Bool) (a s l : Int)
    (h : Warning.overlap a s l ∈ (validate_pericopes vs rows rfc).2) :
    (validate_pericopes vs rows rfc).1 = false := by
  have hw : (validate_pericopes vs rows rfc).2 =
      (chaptersLoop vs rows rfc true (periChapters rows)).2 ++
        (perPericopeLoop vs
          (chaptersLoop vs rows rfc true (periChapters rows)).1 rows).2 := rfl
  have hok : (validate_pericopes vs rows rfc).1 =
      (perPericopeLoop vs
        (chaptersLoop vs rows rfc true (periChapters rows)).1 rows).1 := rfl
  rw [hw] at h
  rw [hok]
  rcases List.mem_append.mp h with hm | hm
  · rw [chaptersLoop_overlap_false vs rows rfc true (periChapters rows) a s l hm]
    exact perPericopeLoop_false vs rows
  · rcases perPericopeLoop_shape vs _ rows _ hm with ⟨c, hc⟩ | ⟨c, p, e, m, hc⟩ <;>
      simp at hc

theorem perPericopeLoop_noVerses (vs : List VerseRow) (ok : Bool)
    (rows : List PericopeRow) (r : PericopeRow) (hr : r ∈ rows)
    (hnone : lastVerse vs r.chapter = none) :
    Warning.noVerses r.chapter ∈ (perPericopeLoop vs ok rows).2 ∧
      (perPericopeLoop vs ok rows).1 = false := by
  induction rows generalizing ok with
  | nil => simp at hr
  | cons x t ih =>
    rcases List.mem_cons.mp hr with rfl | hr
    · unfold perPericopeLoop
      simp only [hnone]
      exact ⟨List.mem_cons_self _ _, perPericopeLoop_false vs t⟩
    · unfold perPericopeLoop
      split
      · rcases ih false hr with ⟨hmem, hok⟩
        exact ⟨List.mem_cons_of_mem _ hmem, hok⟩
      · split
        · rcases ih false hr with ⟨hmem, hok⟩
          exact ⟨List.mem_cons_of_mem _ hmem, hok⟩
        · exact ih ok hr

theorem perPericopeLoop_endBeyond (vs : List VerseRow) (ok : Bool)
    (rows : List PericopeRow) (r : PericopeRow) (maxv : Int) (hr : r ∈ rows)
    (hsome : lastVerse vs r.chapter = some maxv) (hgt : r.end_verse > maxv) :
    Warning.endBeyond r.chapter r.pericope_id r.end_verse maxv ∈
        (perPericopeLoop vs ok rows).2 ∧
      (perPericopeLoop vs ok rows).1 = false := by
  induction rows generalizing ok with
  | nil => simp at hr
  | cons x t ih =>
    rcases List.mem_cons.mp hr with rfl | hr
    · unfold perPericopeLoop
      simp only [hsome]
      rw [if_pos hgt]
      exact ⟨List.mem_cons_self _ _, perPericopeLoop_false vs t⟩
    · unfold perPericopeLoop
      split
      · rcases ih false hr with ⟨hmem, hok⟩
        exact ⟨List.mem_cons_of_mem _ hmem, hok⟩
      · split
        · rcases ih false hr with ⟨hmem, hok⟩
          exact ⟨List.mem_cons_of_mem _ hmem, hok⟩
        · exact ih ok hr

theorem validate_warnings_eq (vs : List VerseRow) (rows : List PericopeRow)
    (rfc : Bool) :
    (validate_pericopes vs rows rfc).2 =
      (chaptersLoop vs rows rfc true (periChapters rows)).2 ++
        (perPericopeLoop vs
          (chaptersLoop vs rows rfc true (periChapters rows)).1 rows).2 := rfl

theorem validate_ok_eq (vs : List VerseRow) (rows : List PericopeRow)
    (rfc : Bool) :
    (validate_pericopes vs rows rfc).1 =
      (perPericopeLoop vs
        (chaptersLoop vs rows rfc true (periChapters rows)).1 rows).1 := rfl

theorem walk_last_cursor (rfc : Bool) (chap : Int) (ok : Bool) (last : Int)
    (rs : List PericopeRow) (r : PericopeRow) :
    (walk rfc chap ok last (rs ++ [r])).2.2 = r.end_verse := by
  induction rs generalizing ok last with
  | nil => rfl
  | cons x t ih =>
    show (walk rfc chap (stepOk rfc last x ok) x.end_verse (t ++ [r])).2.2 =
      r.end_verse
    exact ih _ _

theorem detectScan_cursor (chap : Int) (last_end : Int)
    (l : List (Int × Int)) :
    (detectScan chap last_end l).2 =
      l.foldl (fun acc se => detectCursorStep acc se.2) last_end := by
  induction l generalizing last_end with
  | nil => rfl
  | cons se t ih =>
    show (detectScan chap (detectCursorStep last_end se.2) t).2 = _
    rw [ih]
    rfl

/-! ### Extractor helper lemmas -/

theorem stringMk_ne_empty {w : List Char} (h : w ≠ []) : String.mk w ≠ "" := by
  intro hc
  exact h (congrArg String.data hc)

theorem not_isEmpty_ne_nil {w : List Char} (h : ¬w.isEmpty = true) : w ≠ [] :=
  fun hc => h (List.isEmpty_iff.mpr hc)

theorem tryMatch_fields {cs rest : List Char} {t : Token}
    (h : tryMatch cs = some (t, rest)) :
    t.greek ≠ "" ∧ t.strongs ≠ "" ∧
      (∀ ch ∈ t.strongs.data, isAsciiDigit ch = true) ∧ t.morph ≠ "" := by
  simp only [tryMatch] at h
  split at h
  · simp at h
  split at h
  · simp at h
  split at h
  · simp at h
  split at h
  · simp at h
  rename_i hw hs1 hd hs2
  split at h
  · simp at h
  rename_i c r5 heq4
  split at h
  · split at h
    · simp at h
    rename_i hm
    split at h
    · simp at h
    rename_i c2 r7 heq6
    split at h
    · simp only [Option.some.injEq, Prod.mk.injEq] at h
      rcases h with ⟨rfl, rfl⟩
      refine ⟨stringMk_ne_empty (not_isEmpty_ne_nil hw), ?_, ?_, ?_⟩
      · exact stringMk_ne_empty (not_isEmpty_ne_nil hd)
      · intro ch hch
        exact List.mem_takeWhile_imp hch
      · exact stringMk_ne_empty (not_isEmpty_ne_nil hm)
    · simp at h
  · simp at h

theorem findTokensAux_fields (fuel : Nat) :
    ∀ (cs : List Char) (t : Token), t ∈ findTokensAux fuel cs →
      t.greek ≠ "" ∧ t.strongs ≠ "" ∧
        (∀ ch ∈ t.strongs.data, isAsciiDigit ch = true) ∧ t.morph ≠ "" := by
  induction fuel with
  | zero => intro cs t h; simp [findTokensAux] at h
  | succ n ih =>
    intro cs t h
    cases cs with
    | nil => simp [findTokensAux] at h
    | cons c cs2 =>
      unfold findTokensAux at h
      revert h
      split
      · rename_i t0 rest0 heq
        intro h
        rcases List.mem_cons.mp h with rfl | h
        · exact tryMatch_fields heq
        · exact ih rest0 t h
      · intro h
        exact ih cs2 t h

/-! ### Summation helper lemmas -/

theorem sum_map_ite_zero {a : Int} {k : Nat} :
    ∀ (t : List Int), a ∉ t →
      (t.map (fun c => if a = c then k else 0)).sum = 0 := by
  intro t
  induction t with
  | nil => intro _; rfl
  | cons c s ih =>
    intro h
    have h1 : a ≠ c := fun hh => h (hh ▸ List.mem_cons_self c s)
    rw [List.map_cons, List.sum_cons, if_neg h1,
      ih (fun hm => h (List.mem_cons_of_mem c hm))]

theorem sum_map_ite {a : Int} {k : Nat} :
    ∀ (cs : List Int), cs.Nodup → a ∈ cs →
      (cs.map (fun c => if a = c then k else 0)).sum = k := by
  intro cs
  induction cs with
  | nil => intro _ h; simp at h
  | cons c t ih =>
    intro hnd hmem
    rcases List.mem_cons.mp hmem with rfl | hmem2
    · rw [List.map_cons, List.sum_cons, if_pos rfl,
        sum_map_ite_zero t (List.nodup_cons.mp hnd).1, Nat.add_zero]
    · have hne : a ≠ c := by
        rintro rfl
        exact (List.nodup_cons.mp hnd).1 hmem2
      rw [List.map_cons, List.sum_cons, if_neg hne,
        ih (List.nodup_cons.mp hnd).2 hmem2, Nat.zero_add]

theorem sum_partition {α : Type} (key : α → Int) (f : α → Nat)
    (cs : List Int) (hnd : cs.Nodup) :
    ∀ (l : List α), (∀ x ∈ l, key x ∈ cs) →
      (cs.map (fun c =>
        ((l.filter (fun x => decide (key x = c))).map f).sum)).sum =
      (l.map f).sum := by
  intro l
  induction l with
  | nil => intro _; simp
  | cons x l2 ih =>
    intro hcov
    have hx : key x ∈ cs := hcov x (List.mem_cons_self x l2)
    have hcov2 : ∀ y ∈ l2, key y ∈ cs :=
      fun y hy => hcov y (List.mem_cons_of_mem x hy)
    have hstep : ∀ c : Int,
        ((List.filter (fun y => decide (key y = c)) (x :: l2)).map f).sum =
          (if key x = c then f x else 0) +
            ((l2.filter (fun y => decide (key y = c))).map f).sum := by
      intro c
      rw [List.filter_cons]
      by_cases hc : key x = c
      · rw [if_pos (by simpa using hc), if_pos hc, List.map_cons, List.sum_cons]
      · rw [if_neg (by simpa using hc), if_neg hc, Nat.zero_add]
    calc (cs.map (fun c =>
            ((List.filter (fun y => decide (key y = c)) (x :: l2)).map f).sum)).sum
        = (cs.map (fun c => (if key x = c then f x else 0) +
            ((l2.filter (fun y => decide (key y = c))).map f).sum)).sum := by
          exact congrArg List.sum (List.map_congr_left (fun c _ => hstep c))
      _ = (cs.map (fun c => if key x = c then f x else 0)).sum +
            (cs.map (fun c =>
              ((l2.filter (fun y => decide (key y = c))).map f).sum)).sum := by
          rw [← List.sum_map_add]
      _ = f x + (l2.map f).sum := by
          rw [sum_map_ite cs hnd hx, ih hcov2]
      _ = ((x :: l2).map f).sum := by
          rw [List.map_cons, List.sum_cons]

/-! ### Assembler helper lemmas -/

theorem unionChapters_nodup (vs : List VerseRow) (rows : List PericopeRow) :
    (unionChapters vs rows).Nodup :=
  ((stableSort_perm _ _).nodup_iff).mpr (List.nodup_dedup _)

theorem mem_unionChapters (vs : List VerseRow) (rows : List PericopeRow)
    (c : Int) :
    c ∈ unionChapters vs rows ↔
      (∃ v ∈ vs, v.chapter = c) ∨ (∃ r ∈ rows, r.chapter = c) := by
  unfold unionChapters
  rw [mem_stableSort, List.mem_dedup, List.mem_append]
  simp [List.mem_map]

theorem unionChapters_sorted (vs : List VerseRow) (rows : List PericopeRow) :
    (unionChapters vs rows).Pairwise (· < ·) := by
  have hs : (unionChapters vs rows).Pairwise (fun a b : Int => a ≤ b) :=
    (pairwise_stableSort _ intLe_trans intLe_total _).imp
      (fun h => by simpa using h)
  have hn : (unionChapters vs rows).Pairwise (fun a b : Int => a ≠ b) :=
    unionChapters_nodup vs rows
  exact (hs.and hn).imp (fun h => lt_of_le_of_ne h.1 h.2)

theorem sortChapterPeris_perm (ho : Bool) (grp : List PericopeRow) :
    (sortChapterPeris ho grp).Perm grp := by
  unfold sortChapterPeris
  split
  · exact stableSort_perm _ _
  · exact stableSort_perm _ _

theorem mem_selectVerses (vs : List VerseRow) (c s e : Int) (v : VerseRow) :
    v ∈ selectVerses vs c s e ↔
      v ∈ vs ∧ v.chapter = c ∧ s ≤ v.verse ∧ v.verse ≤ e := by
  unfold selectVerses
  rw [mem_stableSort]
  simp only [List.mem_filter, decide_eq_true_eq]
  tauto

theorem selectVerses_sorted (vs : List VerseRow) (c s e : Int) :
    (selectVerses vs c s e).Pairwise (fun a b : VerseRow => a.verse ≤ b.verse) :=
  (pairwise_stableSort leV leV_trans leV_total _).imp
    (fun h => by simpa [leV] using h)

theorem inspectedSeq_perm (rows : List PericopeRow) (c : Int) :
    (inspectedSeq rows c).Perm
      (rows.filter (fun r => decide (r.chapter = c))) :=
  stableSort_perm _ _

theorem inspectedSeq_sorted (rows : List PericopeRow) (c : Int) :
    (inspectedSeq rows c).Pairwise (fun a b : PericopeRow =>
      a.start_verse < b.start_verse ∨
        (a.start_verse = b.start_verse ∧ a.end_verse ≤ b.end_verse)) :=
  (pairwise_stableSort leSE leSE_trans leSE_total _).imp
    (fun h => by simpa [leSE] using h)

theorem selectVerses_sum {τ : Type} (tok : String → List τ)
    (vs : List VerseRow) (c s e : Int) :
    ((selectVerses vs c s e).map (fun r => (tok r.text).length)).sum =
      ((vs.filter (fun v => decide (v.chapter = c ∧
          s ≤ v.verse ∧ v.verse ≤ e))).map
        (fun r => (tok r.text).length)).sum := by
  unfold selectVerses
  rw [((stableSort_perm leV _).map _).sum_eq, List.filter_filter]
  refine congrArg List.sum (congrArg _ (List.filter_congr ?_))
  intro v _
  by_cases h1 : v.chapter = c <;> by_cases h2 : s ≤ v.verse <;>
    by_cases h3 : v.verse ≤ e <;> simp [h1, h2, h3]

theorem assemble_totalTokens {τ : Type} (tok : String → List τ)
    (vs : List VerseRow) (t : PericopeTable) :
    totalTokens (assemble tok vs t) =
      (t.rows.map (fun p =>
        ((vs.filter (fun v => decide (v.chapter = p.chapter ∧
            p.start_verse ≤ v.verse ∧ v.verse ≤ p.end_verse))).map
          (fun v => (tok v.text).length)).sum)).sum := by
  have h1 : totalTokens (assemble tok vs t) =
      ((unionChapters vs t.rows).map (fun c =>
        ((sortChapterPeris t.hasOrder
            (t.rows.filter (fun r => decide (r.chapter = c)))).map
          (fun row => ((selectVerses vs c row.start_verse row.end_verse).map
            (fun r => (tok r.text).length)).sum)).sum)).sum := by
    simp only [totalTokens, assemble, List.map_map]
    refine congrArg List.sum (List.map_congr_left ?_)
    intro c _
    simp only [Function.comp, assembleChapter, List.map_map]
    refine congrArg List.sum (List.map_congr_left ?_)
    intro row _
    simp only [Function.comp_def, assemblePeri, List.map_map]
  rw [h1]
  have h2 : ∀ c : Int,
      ((sortChapterPeris t.hasOrder
          (t.rows.filter (fun r => decide (r.chapter = c)))).map
        (fun row => ((selectVerses vs c row.start_verse row.end_verse).map
          (fun r => (tok r.text).length)).sum)).sum =
      ((t.rows.filter (fun r => decide (r.chapter = c))).map (fun p =>
        ((vs.filter (fun v => decide (v.chapter = p.chapter ∧
            p.start_verse ≤ v.verse ∧ v.verse ≤ p.end_verse))).map
          (fun v => (tok v.text).length)).sum)).sum := by
    intro c
    rw [((sortChapterPeris_perm t.hasOrder _).map _).sum_eq]
    refine congrArg List.sum (List.map_congr_left ?_)
    intro p hp
    have hc : p.chapter = c := by
      have := (List.mem_filter.mp hp).2
      simpa using this
    rw [selectVerses_sum tok vs c p.start_verse p.end_verse, hc]
  rw [List.map_congr_left (fun c _ => h2 c)]
  exact sum_partition (fun r => r.chapter) _ (unionChapters vs t.rows)
    (unionChapters_nodup vs t.rows) t.rows
    (fun p hp => (mem_unionChapters vs t.rows p.chapter).mpr
      (Or.inr ⟨p, hp, rfl⟩))

theorem assemble_pericope_verses {τ : Type} (tok : String → List τ)
    (vs : List VerseRow) (t : PericopeTable) (cb : ChapterBlock τ)
    (pb : PericopeBlock τ) (hcb : cb ∈ assemble tok vs t)
    (hpb : pb ∈ cb.pericopes) :
    (∀ vb : VerseBlock τ, vb ∈ pb.verses ↔ ∃ v : VerseRow, v ∈ vs ∧
      v.chapter = cb.chapter ∧ pb.start_verse ≤ v.verse ∧
      v.verse ≤ pb.end_verse ∧ vb = ⟨v.verse, tok v.text⟩) ∧
    pb.verses.Pairwise (fun a b => a.verse ≤ b.verse) := by
  rcases List.mem_map.mp hcb with ⟨c, hc, rfl⟩
  rcases List.mem_map.mp hpb with ⟨row, hrow, rfl⟩
  constructor
  · intro vb
    constructor
    · intro hvb
      rcases List.mem_map.mp hvb with ⟨v, hv, rfl⟩
      rcases (mem_selectVerses vs c row.start_verse row.end_verse v).mp hv
        with ⟨hvs, hch, hs, he⟩
      exact ⟨v, hvs, hch, hs, he, rfl⟩
    · rintro ⟨v, hvs, hch, hs, he, rfl⟩
      exact List.mem_map.mpr ⟨v,
        (mem_selectVerses vs c row.start_verse row.end_verse v).mpr
          ⟨hvs, hch, hs, he⟩, rfl⟩
  · exact List.pairwise_map.mpr
      (selectVerses_sorted vs c row.start_verse row.end_verse)

/-! ### Claim theorems -/

/-- C1, counterexample: in validate_pericopes the cursor does NOT advance to
max(previous cursor, end_verse). For chapter 1 pericopes (1–5) and (2–3) —
sorted by start_verse, with out-of-order end_verse values — the final cursor
is 3 (the last pericope's end_verse), while the maximum end_verse seen is 5;
with verses 1..5 present the validator therefore emits the coverage-mismatch
warning "termina em 3, mas deveria terminar em 5", which the claimed
max-cursor semantics would not produce. -/
theorem C1_counterexample :
    (walk false 1 true 0 (inspectedSeq [periOneFive, periTwoThree] 1)).2.2 = 3 ∧
    claimedMaxCursor (inspectedSeq [periOneFive, periTwoThree] 1) = 5 ∧
    (3 : Int) ≠ 5 ∧
    Warning.coverage 1 3 5 ∈
      (validate_pericopes versesOneToFive [periOneFive, periTwoThree] false).2 := by
  decide

/-- C1, amended: after each pericope the validator's cursor equals that
pericope's end_verse alone (the previous cursor is discarded), so the final
cursor of a chapter walk is the last walked pericope's end_verse; the
max(last_end, end_verse) advance the claim describes is what detect_overlaps
(convert_csv_with_pericopes.py) performs. -/
theorem C1_amended :
    (∀ (rfc : Bool) (chap : Int) (ok : Bool) (last : Int)
        (rs : List PericopeRow) (r : PericopeRow),
        (walk rfc chap ok last (rs ++ [r])).2.2 = r.end_verse) ∧
    (∀ (chap last_end : Int) (l : List (Int × Int)),
        (detectScan chap last_end l).2 =
          l.foldl (fun acc se => max acc se.2) last_end) := by
  constructor
  · exact walk_last_cursor
  · intro chap le l
    rw [detectScan_cursor]
    rfl

/-- C2, counterexample: with an `order` column present whose order disagrees
with (start_verse, end_verse) order, the sequence the validator inspects for
chapter 1 is the (start_verse, end_verse)-sorted one, not the canonical
(`order`-sorted) one, and the verdict/warnings differ from what a
canonical-order walk would produce: the actual run is (ok = true, no
warnings) while the canonical-order walk would emit warnings. -/
theorem C2_counterexample :
    inspectedSeq (canonicalSort orderedTab) 1 ≠ canonicalChapterSeq orderedTab 1 ∧
    validate_pericopes versesOneToSix (canonicalSort orderedTab) false =
      (true, []) ∧
    (walk false 1 true 0 (canonicalChapterSeq orderedTab 1)).2.1 ≠ [] := by
  decide

/-- C2, amended: the per-chapter sequence the validator inspects is the
chapter's pericope rows re-sorted by (start_verse, end_verse) ascending —
a permutation of the group that is sorted by that lexicographic key — and
this holds whether or not an `order` column is present (the validator ignores
it). -/
theorem C2_amended :
    ∀ (rows : List PericopeRow) (c : Int),
      (inspectedSeq rows c).Perm
        (rows.filter (fun r => decide (r.chapter = c))) ∧
      (inspectedSeq rows c).Pairwise (fun a b =>
        a.start_verse < b.start_verse ∨
          (a.start_verse = b.start_verse ∧ a.end_verse ≤ b.end_verse)) := by
  intro rows c
  exact ⟨inspectedSeq_perm rows c, inspectedSeq_sorted rows c⟩

/-- C4: the validator emits an overlap warning in a step exactly when the
pericope's start_verse ≤ cursor and the cursor is nonzero; any overlap
warning in the validator's output forces the final ok verdict to false for
every value of require_full_coverage; and a step at cursor 0 (the first
pericope of a chapter) can never emit an overlap warning. -/
theorem C4_overlap_semantics :
    (∀ (chap last : Int) (r : PericopeRow) (c s l : Int),
      Warning.overlap c s l ∈ stepWarnings chap last r ↔
        (c = chap ∧ s = r.start_verse ∧ l = last ∧
         r.start_verse ≤ last ∧ last ≠ 0)) ∧
    (∀ (vs : List VerseRow) (rows : List PericopeRow) (rfc : Bool)
        (c s l : Int),
      Warning.overlap c s l ∈ (validate_pericopes vs rows rfc).2 →
        (validate_pericopes vs rows rfc).1 = false) ∧
    (∀ (chap : Int) (r : PericopeRow) (c s l : Int),
      Warning.overlap c s l ∉ stepWarnings chap 0 r) := by
  refine ⟨mem_stepWarnings_overlap, validate_overlap_ok_false, ?_⟩
  intro chap r c s l h
  rcases (mem_stepWarnings_overlap chap 0 r c s l).mp h with ⟨_, _, _, _, hne⟩
  exact hne rfl

/-- C4 witness: on the overlapping input (1–5), (2–3) with verses 1..5 the
validator emits Warning.overlap 1 2 5 and its verdict is false. -/
theorem C4_witness :
    Warning.overlap 1 2 5 ∈
        (validate_pericopes versesOneToFive [periOneFive, periTwoThree] false).2 ∧
      (validate_pericopes versesOneToFive [periOneFive, periTwoThree] false).1 =
        false :=
  ⟨by decide,
   C4_overlap_semantics.2.1 versesOneToFive [periOneFive, periTwoThree] false
     1 2 5 (by decide)⟩

/-- C5: a step emits a gap warning exactly when start_verse ≠ cursor + 1;
with require_full_coverage off, a step that has no overlap leaves the ok flag
unchanged (a gap alone never flips it); and on the gap input (1–2), (5–6)
with verses 1..6 the run yields (ok = true, one gap warning) without the
coverage flag and ok = false with it. -/
theorem C5_gap_semantics :
    (∀ (chap last : Int) (r : PericopeRow) (c l s : Int),
      Warning.gap c l s ∈ stepWarnings chap last r ↔
        (c = chap ∧ l = last ∧ s = r.start_verse ∧
         r.start_verse ≠ last + 1)) ∧
    (∀ (last : Int) (r : PericopeRow) (ok : Bool),
      ¬(r.start_verse ≤ last ∧ last ≠ 0) → stepOk false last r ok = ok) ∧
    (validate_pericopes versesOneToSix [periOneTwo, periFiveSix] false =
        (true, [Warning.gap 1 2 5]) ∧
      validate_pericopes versesOneToSix [periOneTwo, periFiveSix] true =
        (false, [Warning.gap 1 2 5])) := by
  exact ⟨mem_stepWarnings_gap, stepOk_id, by decide⟩

/-- C5 witness: at cursor 2 the pericope (5–6) emits the gap warning and,
without require_full_coverage, leaves ok untouched. -/
theorem C5_witness :
    Warning.gap 1 2 5 ∈ stepWarnings 1 2 periFiveSix ∧
      stepOk false 2 periFiveSix true = true :=
  ⟨(C5_gap_semantics.1 1 2 periFiveSix 1 2 5).mpr (by decide),
   C5_gap_semantics.2.1 2 periFiveSix true (by decide)⟩

/-- C10: whenever a validator step emits an overlap warning, the same step
also emits a gap warning (start_verse ≤ cursor rules out
start_verse = cursor + 1), so the step contributes at least two warnings for
that pericope. -/
theorem C10_overlap_implies_gap :
    ∀ (chap last : Int) (r : PericopeRow) (c s l : Int),
      Warning.overlap c s l ∈ stepWarnings chap last r →
        Warning.gap chap last r.start_verse ∈ stepWarnings chap last r ∧
          2 ≤ (stepWarnings chap last r).length := by
  intro chap last r c s l h
  rcases (mem_stepWarnings_overlap chap last r c s l).mp h with
    ⟨_, _, _, hle, hne⟩
  have hgap : r.start_verse ≠ last + 1 := by omega
  constructor
  · exact (mem_stepWarnings_gap chap last r chap last r.start_verse).mpr
      ⟨rfl, rfl, rfl, hgap⟩
  · unfold stepWarnings
    rw [if_pos ⟨hle, hne⟩, if_pos hgap]
    simp

/-- C10 witness: the overlapping step at cursor 5 with pericope (2–3) emits
both the overlap and the gap warning. -/
theorem C10_witness :
    Warning.gap 1 5 2 ∈ stepWarnings 1 5 periTwoThree ∧
      2 ≤ (stepWarnings 1 5 periTwoThree).length :=
  C10_overlap_implies_gap 1 5 periTwoThree 1 2 5 (by decide)

/-- C6: for every pericope row, if its chapter has no verse rows the
validator emits the no-verses warning and fails, and if its end_verse
exceeds the chapter's maximum observed verse the validator emits the
end-beyond warning and fails — both for every value of
require_full_coverage. -/
theorem C6_per_pericope_errors :
    ∀ (vs : List VerseRow) (rows : List PericopeRow) (rfc : Bool)
        (r : PericopeRow), r ∈ rows →
      (lastVerse vs r.chapter = none →
        Warning.noVerses r.chapter ∈ (validate_pericopes vs rows rfc).2 ∧
          (validate_pericopes vs rows rfc).1 = false) ∧
      (∀ maxv : Int, lastVerse vs r.chapter = some maxv →
        r.end_verse > maxv →
          Warning.endBeyond r.chapter r.pericope_id r.end_verse maxv ∈
              (validate_pericopes vs rows rfc).2 ∧
            (validate_pericopes vs rows rfc).1 = false) := by
  intro vs rows rfc r hr
  constructor
  · intro hnone
    rcases perPericopeLoop_noVerses vs
        (chaptersLoop vs rows rfc true (periChapters rows)).1 rows r hr hnone
      with ⟨hmem, hok⟩
    refine ⟨?_, ?_⟩
    · rw [validate_warnings_eq]
      exact List.mem_append.mpr (Or.inr hmem)
    · rw [validate_ok_eq]
      exact hok
  · intro maxv hsome hgt
    rcases perPericopeLoop_endBeyond vs
        (chaptersLoop vs rows rfc true (periChapters rows)).1 rows r maxv hr
        hsome hgt
      with ⟨hmem, hok⟩
    refine ⟨?_, ?_⟩
    · rw [validate_warnings_eq]
      exact List.mem_append.mpr (Or.inr hmem)
    · rw [validate_ok_eq]
      exact hok

/-- C6 witness: the chapter-2 pericope against verses of chapter 1 only
yields the no-verses error, and the pericope ending at 8 against maximum
verse 6 yields the end-beyond error; both fail the run. -/
theorem C6_witness :
    (Warning.noVerses 2 ∈
        (validate_pericopes versesOneToSix [periChapterTwo] false).2 ∧
      (validate_pericopes versesOneToSix [periChapterTwo] false).1 = false) ∧
    (Warning.endBeyond 1 "Q2" 8 6 ∈
        (validate_pericopes versesOneToSix [periBeyondEnd] true).2 ∧
      (validate_pericopes versesOneToSix [periBeyondEnd] true).1 = false) :=
  ⟨(C6_per_pericope_errors versesOneToSix [periChapterTwo] false
      periChapterTwo (by decide)).1 (by decide),
   (C6_per_pericope_errors versesOneToSix [periBeyondEnd] true
      periBeyondEnd (by decide)).2 6 (by decide) (by decide)⟩

/-- C9: the assembled output has one chapter block per chapter of the union
of both tables, in strictly ascending chapter order; a chapter with no verse
rows still yields a block with one pericope block per pericope row of that
chapter, all with empty verse sequences; and such a chapter makes the
validator emit a no-verses warning (with ok = false) rather than failing. -/
theorem C9_union_and_empty_chapters :
    ∀ (vs : List VerseRow) (t : PericopeTable) (fb : Bool),
      ((build_json vs t fb).map ChapterBlock.chapter).Pairwise (· < ·) ∧
      (∀ c : Int, c ∈ (build_json vs t fb).map ChapterBlock.chapter ↔
        (∃ v ∈ vs, v.chapter = c) ∨ (∃ r ∈ t.rows, r.chapter = c)) ∧
      (∀ cb ∈ build_json vs t fb, (∀ v ∈ vs, v.chapter ≠ cb.chapter) →
        cb.pericopes.length =
            (t.rows.filter (fun r => decide (r.chapter = cb.chapter))).length ∧
          ∀ pb ∈ cb.pericopes, pb.verses = []) ∧
      (∀ (rfc : Bool) (r : PericopeRow), r ∈ t.rows →
        (∀ v ∈ vs, v.chapter ≠ r.chapter) →
          Warning.noVerses r.chapter ∈ (validate_pericopes vs t.rows rfc).2 ∧
            (validate_pericopes vs t.rows rfc).1 = false) := by
  intro vs t fb
  have hmap : (build_json vs t fb).map ChapterBlock.chapter =
      unionChapters vs t.rows := by
    simp only [build_json, assemble, List.map_map]
    have h : ∀ c ∈ unionChapters vs t.rows,
        (ChapterBlock.chapter ∘
          assembleChapter (fun s => parse_lemmas_text_only s fb) vs t) c =
          id c := fun c _ => rfl
    rw [List.map_congr_left h, List.map_id]
  refine ⟨?_, ?_, ?_, ?_⟩
  · rw [hmap]
    exact unionChapters_sorted vs t.rows
  · intro c
    rw [hmap]
    exact mem_unionChapters vs t.rows c
  · intro cb hcb hnov
    rcases List.mem_map.mp hcb with ⟨c, hc, rfl⟩
    have hnil : vs.filter (fun v => decide (v.chapter = c)) = [] :=
      List.filter_eq_nil_iff.mpr (fun v hv => by
        simpa using hnov v hv)
    constructor
    · show ((sortChapterPeris t.hasOrder
          (t.rows.filter (fun r => decide (r.chapter = c)))).map
            (assemblePeri (fun s => parse_lemmas_text_only s fb) vs c)).length = _
      rw [List.length_map,
        (sortChapterPeris_perm t.hasOrder _).length_eq]
      rfl
    · intro pb hpb
      rcases List.mem_map.mp hpb with ⟨row, hrow, rfl⟩
      show ((selectVerses vs c row.start_verse row.end_verse).map _) = []
      have hsel : selectVerses vs c row.start_verse row.end_verse = [] := by
        unfold selectVerses
        rw [hnil]
        rfl
      rw [hsel]
      rfl
  · intro rfc r hr hnov
    have hnil : vs.filter (fun v => decide (v.chapter = r.chapter)) = [] :=
      List.filter_eq_nil_iff.mpr (fun v hv => by
        simpa using hnov v hv)
    have hnone : lastVerse vs r.chapter = none := by
      unfold lastVerse
      rw [hnil]
      rfl
    rcases perPericopeLoop_noVerses vs
        (chaptersLoop vs t.rows rfc true (periChapters t.rows)).1 t.rows r hr
        hnone
      with ⟨hmem, hok⟩
    refine ⟨?_, ?_⟩
    · rw [validate_warnings_eq]
      exact List.mem_append.mpr (Or.inr hmem)
    · rw [validate_ok_eq]
      exact hok

/-- C9 witness: a pericope table referencing only chapter 2 against verses
of chapter 1 still yields both chapter blocks in ascending order, the
chapter-2 block carrying one pericope block with empty verses, and the
validator warns instead of crashing. -/
theorem C9_witness :
    ((build_json versesOneToSix ⟨[periChapterTwo], false⟩ false).map
        ChapterBlock.chapter).Pairwise (· < ·) ∧
      (Warning.noVerses 2 ∈
        (validate_pericopes versesOneToSix [periChapterTwo] true).2 ∧
        (validate_pericopes versesOneToSix [periChapterTwo] true).1 = false) :=
  ⟨(C9_union_and_empty_chapters versesOneToSix ⟨[periChapterTwo], false⟩
      false).1,
   (C9_union_and_empty_chapters versesOneToSix ⟨[periChapterTwo], false⟩
      false).2.2.2 true periChapterTwo (by decide) (by decide)⟩

/-- C8: every token the extractor returns has a non-empty surface, a
non-empty all-digit strongs code and a non-empty morph code, and the sample
text with two TOKEN_RE matches yields exactly its two tokens in source
order. -/
theorem C8_extractor_tokens :
    (∀ (text : String) (t : Token), t ∈ parse_tokens text →
      t.greek ≠ "" ∧ t.strongs ≠ "" ∧
        (∀ ch ∈ t.strongs.data, isAsciiDigit ch = true) ∧ t.morph ≠ "") ∧
    parse_tokens "λόγος 3056 \x7bN-NSM\x7d ἦν 1510 \x7bV-IAI3S\x7d" =
      [⟨"λόγος", "3056", "N-NSM"⟩, ⟨"ἦν", "1510", "V-IAI3S"⟩] := by
  constructor
  · intro text t h
    exact findTokensAux_fields text.data.length text.data t h
  · decide

/-- C8 witness: the single token extracted from a one-match text has the
guaranteed field properties. -/
theorem C8_witness :
    (Token.mk "ab" "12" "m").greek ≠ "" ∧
      (Token.mk "ab" "12" "m").strongs ≠ "" ∧
      (∀ ch ∈ (Token.mk "ab" "12" "m").strongs.data,
        isAsciiDigit ch = true) ∧
      (Token.mk "ab" "12" "m").morph ≠ "" :=
  C8_extractor_tokens.1 "ab 12 \x7bm\x7d" ⟨"ab", "12", "m"⟩ (by decide)

/-- C3, counterexample: a verse covered by two overlapping pericopes is
emitted once per pericope, so its tokens are counted twice in the output
total, while the claimed set-based sum counts it once. -/
theorem C3_counterexample :
    totalTokens (build_chapter_structure [oneTokenVerse] overlapTab) = 2 ∧
    claimedCoveredTotal parse_tokens [oneTokenVerse] overlapTab.rows = 1 ∧
    totalTokens (build_chapter_structure [oneTokenVerse] overlapTab) ≠
      claimedCoveredTotal parse_tokens [oneTokenVerse] overlapTab.rows := by
  decide

/-- C3, amended: for both assemblers, the total token count across all verse
blocks equals the sum over pericope rows of the per-verse extractor token
counts of the verses in that pericope's chapter and inclusive interval — a
verse covered by several pericopes is counted once per covering pericope. -/
theorem C3_amended :
    (∀ (vs : List VerseRow) (t : PericopeTable) (fb : Bool),
      totalTokens (build_json vs t fb) =
        (t.rows.map (fun p =>
          ((vs.filter (fun v => decide (v.chapter = p.chapter ∧
              p.start_verse ≤ v.verse ∧ v.verse ≤ p.end_verse))).map
            (fun v => (parse_lemmas_text_only v.text fb).length)).sum)).sum) ∧
    (∀ (vs : List VerseRow) (t : PericopeTable),
      totalTokens (build_chapter_structure vs t) =
        (t.rows.map (fun p =>
          ((vs.filter (fun v => decide (v.chapter = p.chapter ∧
              p.start_verse ≤ v.verse ∧ v.verse ≤ p.end_verse))).map
            (fun v => (parse_tokens v.text).length)).sum)).sum) := by
  constructor
  · intro vs t fb
    exact assemble_totalTokens (fun s => parse_lemmas_text_only s fb) vs t
  · intro vs t
    exact assemble_totalTokens parse_tokens vs t

/-- C7: in both assemblers, a pericope block's verses are exactly the verse
rows of its chapter inside the inclusive [start_verse, end_verse] interval,
sorted by verse ascending; an interval matching no verses yields the empty
sequence; and (contrapositive of the characterization) a verse row inside no
interval contributes nothing. -/
theorem C7_pericope_block_verses :
    (∀ (vs : List VerseRow) (t : PericopeTable) (fb : Bool)
        (cb : ChapterBlock LemmaToken) (pb : PericopeBlock LemmaToken),
      cb ∈ build_json vs t fb → pb ∈ cb.pericopes →
      (∀ vb : VerseBlock LemmaToken, vb ∈ pb.verses ↔
        ∃ v : VerseRow, v ∈ vs ∧ v.chapter = cb.chapter ∧
          pb.start_verse ≤ v.verse ∧ v.verse ≤ pb.end_verse ∧
          vb = ⟨v.verse, parse_lemmas_text_only v.text fb⟩) ∧
      pb.verses.Pairwise (fun a b => a.verse ≤ b.verse) ∧
      ((∀ v ∈ vs, ¬(v.chapter = cb.chapter ∧ pb.start_verse ≤ v.verse ∧
          v.verse ≤ pb.end_verse)) → pb.verses = [])) ∧
    (∀ (vs : List VerseRow) (t : PericopeTable)
        (cb : ChapterBlock Token) (pb : PericopeBlock Token),
      cb ∈ build_chapter_structure vs t → pb ∈ cb.pericopes →
      (∀ vb : VerseBlock Token, vb ∈ pb.verses ↔
        ∃ v : VerseRow, v ∈ vs ∧ v.chapter = cb.chapter ∧
          pb.start_verse ≤ v.verse ∧ v.verse ≤ pb.end_verse ∧
          vb = ⟨v.verse, parse_tokens v.text⟩) ∧
      pb.verses.Pairwise (fun a b => a.verse ≤ b.verse) ∧
      ((∀ v ∈ vs, ¬(v.chapter = cb.chapter ∧ pb.start_verse ≤ v.verse ∧
          v.verse ≤ pb.end_verse)) → pb.verses = [])) := by
  constructor
  · intro vs t fb cb pb hcb hpb
    rcases assemble_pericope_verses (fun s => parse_lemmas_text_only s fb)
        vs t cb pb hcb hpb with ⟨hiff, hsort⟩
    refine ⟨hiff, hsort, ?_⟩
    intro hnone
    apply List.eq_nil_iff_forall_not_mem.mpr
    intro vb hvb
    rcases (hiff vb).mp hvb with ⟨v, hvs, hch, hs, he, _⟩
    exact hnone v hvs ⟨hch, hs, he⟩
  · intro vs t cb pb hcb hpb
    rcases assemble_pericope_verses parse_tokens vs t cb pb hcb hpb
      with ⟨hiff, hsort⟩
    refine ⟨hiff, hsort, ?_⟩
    intro hnone
    apply List.eq_nil_iff_forall_not_mem.mpr
    intro vb hvb
    rcases (hiff vb).mp hvb with ⟨v, hvs, hch, hs, he, _⟩
    exact hnone v hvs ⟨hch, hs, he⟩

/-- C7 witness: for the block assembled from pericope (1, 1–2) over verses
1..6, the verse sequence is sorted and contains the block for verse 1. -/
theorem C7_witness :
    (⟨"G1", "t1", 1, 2, [⟨1, []⟩, ⟨2, []⟩]⟩ :
        PericopeBlock LemmaToken).verses.Pairwise
      (fun a b => a.verse ≤ b.verse) ∧
    (⟨1, []⟩ : VerseBlock LemmaToken) ∈
      (⟨"G1", "t1", 1, 2, [⟨1, []⟩, ⟨2, []⟩]⟩ :
        PericopeBlock LemmaToken).verses :=
  have h := C7_pericope_block_verses.1 versesOneToSix ⟨[periOneTwo], false⟩
    false ⟨1, [⟨"G1", "t1", 1, 2, [⟨1, []⟩, ⟨2, []⟩]⟩]⟩
    ⟨"G1", "t1", 1, 2, [⟨1, []⟩, ⟨2, []⟩]⟩ (by decide) (by decide)
  ⟨h.2.1, (h.1 ⟨1, []⟩).mpr ⟨⟨1, 1, ""⟩, by decide, by decide, by decide,
    by decide, by decide⟩⟩

end Biblia
